import Mathlib

/-!
# OIC namespaced extern symbols (`oic_extern.h`)

A shallow embedding of the header `src/oic_extern.h`: the token-pasting join
`EXTERN_METHOD`, the declaration helper `EXTERN_FN`, the `MODULE_METADATA`
record with its single instance, and the seven `OCRuntime__PixelBindings`
declarations.  The host-side decoder is not part of the header; it is
modelled from the specification and marked so.

Tokens are modelled as lists of characters.  `EXTERN_METHOD` and `EXTERN_FN`
give the pasted token for the arguments as written; `expandEXTERN_METHOD` and
`expandEXTERN_FN` add what the preprocessor does around the paste (expansion of
the arguments of `EXTERN_FN`, rescan of the pasted token) in a scope of
object-like macros, which the header does not fix and which is a parameter.
-/

namespace OIC

/-- An identifier token of the C source, as its sequence of characters. -/
abbrev Symbol := List Char

/-- The error taxonomy of the codec (spec section 7). -/
inductive CodecError where
  | InvalidSegment
  | EmptyNamespace
  | AmbiguousSeparator
  | MissingNamespace
  deriving DecidableEq, Repr

instance instDecidableEqExcept {ε α : Type} [DecidableEq ε] [DecidableEq α] :
    DecidableEq (Except ε α)
  | .ok a, .ok b => if h : a = b then isTrue (by rw [h]) else isFalse (by
      intro hab; cases hab; exact h rfl)
  | .error a, .error b => if h : a = b then isTrue (by rw [h]) else isFalse (by
      intro hab; cases hab; exact h rfl)
  | .ok _, .error _ => isFalse (by intro hab; cases hab)
  | .error _, .ok _ => isFalse (by intro hab; cases hab)

/-! ## The header: `EXTERN_METHOD`, `EXTERN_FN`, `MODULE_METADATA` -/

/-- The reserved two-character separator `__`. -/
def sep : Symbol := ['_', '_']

/-- Line 31: `#define EXTERN_METHOD(ns, name) ns##__##name`.
The token that the replacement list pastes from `ns`, `__` and `name`.  The
preprocessor rescans the pasted token afterwards: `expandEXTERN_METHOD` adds
that step, and agrees with this definition whenever the pasted name is not a
macro name in scope. -/
def EXTERN_METHOD (ns name : Symbol) : Symbol := ns ++ sep ++ name

/-- Line 34: the `ns` argument is the "namespace token(s) joined by `__`"
(for example `OCRuntime__PixelBindings`): the first segment, with every further
segment attached by the same join that `EXTERN_METHOD` performs.  An empty
path is the empty argument. -/
def nsToken : List Symbol → Symbol
  | [] => []
  | s :: rest => rest.foldl EXTERN_METHOD s

/-- The symbol the header pastes for a namespace path and a method:
`EXTERN_METHOD` applied to the joined namespace token.  The header has no
validation and no failing branch, so a token is always produced. -/
def encode (namespacePath : List Symbol) (method : Symbol) : Except CodecError Symbol :=
  .ok (EXTERN_METHOD (nsToken namespacePath) method)

/-- A foreign function declaration: what `EXTERN_FN` expands to,
`extern ret symbol(params)`. -/
structure ExternDecl where
  ret : String
  symbol : Symbol
  params : List String
  deriving DecidableEq, Repr

/-- Line 42: `#define EXTERN_FN(ns, ret, name, ...) extern ret EXTERN_METHOD(ns, name)(__VA_ARGS__)`.
The declaration for the arguments as written, which is what the expansion
declares when neither argument nor the pasted name is a macro name (as for the
seven declarations of the header); `expandEXTERN_FN` is the expansion of the
declared name in a scope with macros. -/
def EXTERN_FN (ns : Symbol) (ret : String) (name : Symbol) (params : List String) : ExternDecl :=
  { ret := ret, symbol := EXTERN_METHOD ns name, params := params }

/-- Lines 46-50: `struct MODULE_METADATA { const char* name; const char* version; const char* author; }`. -/
structure MODULE_METADATA where
  name : String
  version : String
  author : String
  deriving DecidableEq, Repr

/-- A file-scope item of the header. -/
inductive TopLevel where
  | metadataInstance (d : MODULE_METADATA)
  | structDef (tag : String) (fields : List String)
  | externFn (d : ExternDecl)
  deriving DecidableEq, Repr

/-- The namespace token every declaration of the header passes as `ns`. -/
def OCRuntime__PixelBindings : Symbol := "OCRuntime__PixelBindings".toList

/-- Lines 52-58: the seven `EXTERN_FN` declarations, in file order. -/
def externDecls : List ExternDecl :=
  [ EXTERN_FN OCRuntime__PixelBindings "void" "FillRect".toList
      ["int64_t x", "int64_t y", "int64_t w", "int64_t h", "int64_t color"],
    EXTERN_FN OCRuntime__PixelBindings "void" "SetPixel".toList
      ["int64_t x", "int64_t y", "int64_t color"],
    EXTERN_FN OCRuntime__PixelBindings "void" "Clear".toList ["int64_t color"],
    EXTERN_FN OCRuntime__PixelBindings "void" "RectFill".toList
      ["float x", "float y", "float w", "float h", "int64_t color"],
    EXTERN_FN OCRuntime__PixelBindings "void" "PlayOneShot".toList
      ["const char* soundName", "float volume"],
    EXTERN_FN OCRuntime__PixelBindings "void" "ButtonClick".toList [],
    EXTERN_FN OCRuntime__PixelBindings "void" "SynthPlay".toList
      ["int64_t frequency", "double duration"] ]

/-- The file-scope items of `oic_extern.h`, in file order: the
`MODULE_METADATA` instance of line 27 (positional initialiser), the struct of
lines 46-50, the seven declarations and `struct Color`. -/
def oic_extern_h : List TopLevel :=
  [ .metadataInstance ⟨"MyModule", "1.0.0", "Your Name"⟩,
    .structDef "MODULE_METADATA" ["name", "version", "author"] ]
  ++ externDecls.map .externFn
  ++ [ .structDef "Color" ["r", "g", "b", "a"] ]

/-- What a C translator reports for a file-scope item it refuses. -/
inductive CompileError where
  | IncompleteType (tag : String)
  deriving DecidableEq, Repr

/-- The Module Descriptor objects a unit defines at file scope, read item by
item as C reads them.  `defined` holds the struct tags completed so far.  An
object of type `struct MODULE_METADATA` that is defined with an initialiser
needs the struct to be complete at that point, so an instance written before
the struct definition is refused. -/
def moduleDescriptors (defined : List String) :
    List TopLevel → Except CompileError (List MODULE_METADATA)
  | [] => .ok []
  | .metadataInstance d :: rest =>
    if "MODULE_METADATA" ∈ defined then (moduleDescriptors defined rest).map (d :: ·)
    else .error (.IncompleteType "MODULE_METADATA")
  | .structDef tag _ :: rest => moduleDescriptors (tag :: defined) rest
  | .externFn _ :: rest => moduleDescriptors defined rest

/-- The symbols a unit declares through `EXTERN_FN`. -/
def declaredSymbols (unit : List TopLevel) : List Symbol :=
  unit.filterMap fun
    | .externFn d => some d.symbol
    | _ => none

/-! ## Identifier grammar -/

/-- A character of a plain identifier: letter, digit or underscore. -/
def isIdentChar (c : Char) : Bool := c.isAlpha || c.isDigit || c = '_'

/-- The plain-identifier grammar: non-empty, letters, digits and underscore
only, not starting with a digit. -/
def isIdent : Symbol → Bool
  | [] => false
  | c :: cs => !c.isDigit && (c :: cs).all isIdentChar

/-! ## The preprocessor around the paste -/

/-- The object-like macros in scope where a macro of the header is invoked:
for a macro name the tokens that replace it, its own replacement list fully
expanded; `none` for a name that is not replaced.  The scope comes from the
compiler, from `<stdint.h>` (line 26), from line 24 and from the including
file; the header does not fix it, so it is a parameter.  Function-like macros
and replacement lists with a comma outside parentheses are not covered. -/
abbrev MacroEnv := Symbol → Option (List Symbol)

/-- Rescan of one token: an identifier that is a macro name is replaced by the
macro's tokens, any other token stays. -/
def rescan (macros : MacroEnv) (tok : Symbol) : List Symbol :=
  if isIdent tok then (macros tok).getD [tok] else [tok]

/-- The characters that may follow the first digit of a preprocessing number:
digits, letters, underscore, the period, and a sign right after `e`, `E`, `p`
or `P`. -/
def ppTail : Char → List Char → Bool
  | _, [] => true
  | prev, c :: rest =>
    (isIdentChar c || c = '.' ||
      ((c = '+' || c = '-') && (prev = 'e' || prev = 'E' || prev = 'p' || prev = 'P')))
    && ppTail c rest

/-- A preprocessing number: a digit, or a period and a digit, followed by
`ppTail` characters. -/
def isPPNumber : Symbol → Bool
  | [] => false
  | c :: rest =>
    if c = '.' then
      match rest with
      | [] => false
      | d :: rest2 => d.isDigit && ppTail d rest2
    else c.isDigit && ppTail c rest

/-- The paste `l ## __ ## r` gives a single preprocessing token: `l` is
absent, an identifier or a preprocessing number, and `r` consists of
identifier characters.  Any other paste is refused by the preprocessor. -/
def pasteable (l r : Symbol) : Bool :=
  (l.isEmpty || isIdent l || isPPNumber l) && r.all isIdentChar

/-- The tokens `EXTERN_METHOD(ns, name)` expands to: the arguments are pasted
as written (operands of `##` are not expanded first) and the pasted token is
rescanned.  `none` when the paste is not a valid token. -/
def expandEXTERN_METHOD (macros : MacroEnv) (ns name : Symbol) : Option (List Symbol) :=
  if pasteable ns name then some (rescan macros (EXTERN_METHOD ns name)) else none

/-- An argument of `EXTERN_FN` is macro-expanded before it is substituted,
since line 42 does not use it as an operand of `##`.  An empty argument has no
tokens. -/
def expandArg (macros : MacroEnv) (arg : Symbol) : List Symbol :=
  if arg.isEmpty then [] else rescan macros arg

/-- The tokens that `EXTERN_FN(ns, ret, name, ...)` leaves between `extern ret`
and the parameter list: `ns` and `name` are expanded first, then
`EXTERN_METHOD` pastes the last token of the one, `__` and the first token of
the other, and the pasted token is rescanned.  `none` when the paste is not a
valid token. -/
def expandEXTERN_FN (macros : MacroEnv) (ns name : Symbol) : Option (List Symbol) :=
  match expandEXTERN_METHOD macros ((expandArg macros ns).getLastD [])
      ((expandArg macros name).headD []) with
  | some toks => some ((expandArg macros ns).dropLast ++ toks ++ (expandArg macros name).tail)
  | none => none

/-- A scope the header can be expanded in: the `<stdint.h>` of line 26, as
shipped with glibc, reaches `<gnu/stubs.h>`, which defines
`__stub___compat_bdflush` with an empty replacement list, and line 24 defines
`OIC_EXTERN_H` with an empty replacement list. -/
def stubScope : MacroEnv := fun name =>
  if name = "__stub___compat_bdflush".toList then some []
  else if name = "OIC_EXTERN_H".toList then some []
  else none

/-- The scope without any macro. -/
def noMacros : MacroEnv := fun _ => none

/-! ## Segments and separator occurrences -/

/-- The symbol contains the separator `__` somewhere. -/
def ContainsSep (s : Symbol) : Prop := sep <:+: s

instance (s : Symbol) : Decidable (ContainsSep s) := by
  unfold ContainsSep; infer_instance

/-- The symbol contains a run of at least three consecutive underscores. -/
def ContainsTriple (s : Symbol) : Prop := ['_', '_', '_'] <:+: s

instance (s : Symbol) : Decidable (ContainsTriple s) := by
  unfold ContainsTriple; infer_instance

/-- A segment that `encode`'s stated precondition admits: non-empty,
grammar-conformant, without `__`. -/
def ValidSegment (s : Symbol) : Prop := s ≠ [] ∧ isIdent s = true ∧ ¬ ContainsSep s

instance (s : Symbol) : Decidable (ValidSegment s) := by
  unfold ValidSegment; infer_instance

/-- Two adjacent segments whose junction adds no underscore to the separator:
the left one does not end with `_` and the right one does not start with `_`. -/
def CleanJunction (a b : Symbol) : Prop := a.getLast? ≠ some '_' ∧ b.head? ≠ some '_'

instance (a b : Symbol) : Decidable (CleanJunction a b) := by
  unfold CleanJunction; infer_instance

/-- Every junction of the segment sequence is clean: no segment but the last
ends with `_` and no segment but the first starts with `_`. -/
def CleanJunctions : List Symbol → Prop
  | [] => True
  | [_] => True
  | a :: b :: rest => CleanJunction a b ∧ CleanJunctions (b :: rest)

instance decCleanJunctions : (segs : List Symbol) → Decidable (CleanJunctions segs)
  | [] => isTrue trivial
  | [_] => isTrue trivial
  | a :: b :: rest =>
    @instDecidableAnd (CleanJunction a b) (CleanJunctions (b :: rest)) inferInstance
      (decCleanJunctions (b :: rest))

/-! ## The specification's reading of the join -/

/-- The join in the spec's words: the segments in order, with `__` inserted
between every adjacent pair. -/
def specJoin : List Symbol → Symbol
  | [] => []
  | [s] => s
  | s :: t :: rest => s ++ sep ++ specJoin (t :: rest)

/-! ## Host side, modelled from the specification -/

/-- Prepend a character to the piece currently being read. -/
def consHead (c : Char) : List Symbol → List Symbol
  | [] => [[c]]
  | p :: ps => (c :: p) :: ps

/-- Modelled from the spec: the host's separator scan, which is not in the
header.  The symbol is read left to right; `__` ends the current piece, the
match is greedy and non-overlapping, and `__` directly followed by a third
underscore is ambiguous and fails with `AmbiguousSeparator`. -/
def splitSep : Symbol → Except CodecError (List Symbol)
  | [] => .ok [[]]
  | [c] => .ok [[c]]
  | c :: d :: rest =>
    if c = '_' ∧ d = '_' then
      if rest.head? = some '_' then .error .AmbiguousSeparator
      else (splitSep rest).map ([] :: ·)
    else (splitSep (d :: rest)).map (consHead c)

/-- Modelled from the spec: the host's `decode`, which is not in the header.
The symbol is split on every `__`; the last piece is the method and the
preceding pieces are the namespace path.  A symbol without `__` names no
namespace and fails with `MissingNamespace`. -/
def decode (symbol : Symbol) : Except CodecError (List Symbol × Symbol) :=
  match splitSep symbol with
  | .error e => .error e
  | .ok pieces =>
    match pieces.dropLast, pieces.getLast? with
    | [], _ => .error .MissingNamespace
    | _, none => .error .MissingNamespace
    | ns, some m => .ok (ns, m)

/-! ## The join -/

theorem specJoin_cons_cons (s t : Symbol) (rest : List Symbol) :
    specJoin (s :: t :: rest) = s ++ sep ++ specJoin (t :: rest) := rfl

theorem specJoin_paste (a b : Symbol) (rest : List Symbol) :
    specJoin (EXTERN_METHOD a b :: rest) = a ++ sep ++ specJoin (b :: rest) := by
  cases rest with
  | nil => rfl
  | cons r rest =>
    simp only [specJoin_cons_cons, EXTERN_METHOD, List.append_assoc]

theorem foldl_paste (rest : List Symbol) (s : Symbol) :
    rest.foldl EXTERN_METHOD s = specJoin (s :: rest) := by
  induction rest generalizing s with
  | nil => rfl
  | cons t rest ih =>
    rw [List.foldl_cons, ih, specJoin_paste, specJoin_cons_cons]

theorem nsToken_eq_specJoin (ns : List Symbol) : nsToken ns = specJoin ns := by
  cases ns with
  | nil => rfl
  | cons s rest => exact foldl_paste rest s

theorem specJoin_append (xs ys : List Symbol) (hx : xs ≠ []) (hy : ys ≠ []) :
    specJoin (xs ++ ys) = specJoin xs ++ sep ++ specJoin ys := by
  induction xs with
  | nil => exact absurd rfl hx
  | cons s xs ih =>
    cases xs with
    | nil =>
      cases ys with
      | nil => exact absurd rfl hy
      | cons y ys => rfl
    | cons t xs =>
      have h := ih (List.cons_ne_nil t xs)
      simp only [List.cons_append, specJoin_cons_cons, List.append_assoc] at h ⊢
      rw [h]

theorem specJoin_split (p : List Symbol) (a b : Symbol) (r : List Symbol) :
    specJoin (p ++ EXTERN_METHOD a b :: r) = specJoin (p ++ a :: b :: r) := by
  induction p with
  | nil => exact (specJoin_paste a b r).trans (specJoin_cons_cons a b r).symm
  | cons x p ih =>
    cases p with
    | nil =>
      show specJoin (x :: EXTERN_METHOD a b :: r) = specJoin (x :: a :: b :: r)
      rw [specJoin_cons_cons, specJoin_cons_cons x a]
      exact congrArg _ ih
    | cons y p =>
      show specJoin (x :: y :: (p ++ EXTERN_METHOD a b :: r)) = specJoin (x :: y :: (p ++ a :: b :: r))
      rw [specJoin_cons_cons, specJoin_cons_cons x y]
      exact congrArg _ ih

theorem specJoin_nil_cons (rest : List Symbol) (h : rest ≠ []) :
    specJoin ([] :: rest) = sep ++ specJoin rest := by
  cases rest with
  | nil => exact absurd rfl h
  | cons t rest => rfl

theorem encode_eq_specJoin (ns : List Symbol) (m : Symbol) (hne : ns ≠ []) :
    encode ns m = .ok (specJoin (ns ++ [m])) := by
  rw [specJoin_append ns [m] hne (List.cons_ne_nil m [])]
  simp only [encode, EXTERN_METHOD, nsToken_eq_specJoin, specJoin]

/-- The first segment starts the join. -/
theorem specJoin_cons_eq (s : Symbol) (rest : List Symbol) :
    ∃ tail, specJoin (s :: rest) = s ++ tail := by
  cases rest with
  | nil => exact ⟨[], (List.append_nil s).symm⟩
  | cons t rest => exact ⟨sep ++ specJoin (t :: rest), by simp [specJoin_cons_cons]⟩

/-! ## Identifier grammar -/

theorem isIdent_all (s : Symbol) (h : isIdent s = true) : s.all isIdentChar = true := by
  cases s with
  | nil => rfl
  | cons c cs => simp only [isIdent, Bool.and_eq_true] at h; exact h.2

theorem isIdent_append (a b : Symbol) (ha : isIdent a = true) (hb : b.all isIdentChar = true) :
    isIdent (a ++ b) = true := by
  cases a with
  | nil => simp [isIdent] at ha
  | cons c cs =>
    simp only [isIdent, Bool.and_eq_true, List.cons_append, List.all_cons, List.all_append] at ha ⊢
    exact ⟨ha.1, ha.2.1, ha.2.2, hb⟩

theorem sep_all : sep.all isIdentChar = true := by decide

theorem specJoin_all (segs : List Symbol) (h : ∀ s ∈ segs, s.all isIdentChar = true) :
    (specJoin segs).all isIdentChar = true := by
  induction segs with
  | nil => rfl
  | cons s rest ih =>
    cases rest with
    | nil => exact h s (List.mem_cons_self s [])
    | cons t rest =>
      rw [specJoin_cons_cons, List.all_append, List.all_append, Bool.and_eq_true, Bool.and_eq_true]
      exact ⟨⟨h s (List.mem_cons_self _ _), sep_all⟩,
        ih fun x hx => h x (List.mem_cons_of_mem _ hx)⟩

theorem specJoin_isIdent (s : Symbol) (rest : List Symbol)
    (h : ∀ x ∈ s :: rest, isIdent x = true) : isIdent (specJoin (s :: rest)) = true := by
  cases rest with
  | nil => exact h s (List.mem_cons_self s [])
  | cons t rest =>
    rw [specJoin_cons_cons, List.append_assoc]
    apply isIdent_append _ _ (h s (List.mem_cons_self _ _))
    rw [List.all_append, Bool.and_eq_true]
    exact ⟨sep_all, specJoin_all _ fun x hx => isIdent_all x (h x (List.mem_cons_of_mem _ hx))⟩


/-! ## Occurrences of the separator -/

theorem containsSep_cons_cons (c d : Char) (s : Symbol) :
    ContainsSep (c :: d :: s) ↔ (c = '_' ∧ d = '_') ∨ ContainsSep (d :: s) := by
  unfold ContainsSep sep
  rw [List.infix_cons_iff]
  simp [List.cons_prefix_cons, eq_comm]

theorem not_containsSep_singleton (c : Char) : ¬ ContainsSep [c] := by
  unfold ContainsSep sep
  intro h
  have := h.length_le
  simp at this

theorem not_containsSep_nil : ¬ ContainsSep [] := by
  unfold ContainsSep sep
  intro h
  have := h.length_le
  simp at this

/-! ## The separator scan -/

theorem splitSep_cons_cons (c d : Char) (rest : Symbol) :
    splitSep (c :: d :: rest) =
      if c = '_' ∧ d = '_' then
        if rest.head? = some '_' then .error .AmbiguousSeparator
        else (splitSep rest).map ([] :: ·)
      else (splitSep (d :: rest)).map (consHead c) := by
  rw [splitSep]

/-- A piece without `__` is read as one piece. -/
theorem splitSep_segment : ∀ s : Symbol, ¬ ContainsSep s → splitSep s = .ok [s]
  | [], _ => rfl
  | [_], _ => rfl
  | c :: d :: s, h => by
    rw [containsSep_cons_cons, not_or] at h
    rw [splitSep_cons_cons, if_neg h.1, splitSep_segment (d :: s) h.2]
    rfl

/-- A piece without `__` that does not end with `_`, followed by the separator
and a remainder that does not start with `_`, is split off as the first piece. -/
theorem splitSep_segment_sep (tail : Symbol) (ht : tail.head? ≠ some '_') :
    ∀ s : Symbol, ¬ ContainsSep s → s.getLast? ≠ some '_' →
      splitSep (s ++ sep ++ tail) = (splitSep tail).map (s :: ·)
  | [], _, _ => by
    show splitSep ('_' :: '_' :: tail) = _
    rw [splitSep_cons_cons, if_pos ⟨rfl, rfl⟩, if_neg ht]
  | [c], _, hl => by
    have hc : c ≠ '_' := fun hc => hl (by rw [hc]; rfl)
    show splitSep (c :: '_' :: '_' :: tail) = _
    rw [splitSep_cons_cons, if_neg (fun h => hc h.1), splitSep_cons_cons,
      if_pos ⟨rfl, rfl⟩, if_neg ht]
    cases splitSep tail <;> rfl
  | c :: d :: s, h, hl => by
    rw [containsSep_cons_cons, not_or] at h
    have hl2 : (d :: s).getLast? ≠ some '_' := by
      rw [List.getLast?_cons_cons] at hl; exact hl
    have ih := splitSep_segment_sep tail ht (d :: s) h.2 hl2
    show splitSep (c :: d :: (s ++ sep ++ tail)) = _
    rw [splitSep_cons_cons, if_neg h.1]
    have e : d :: (s ++ sep ++ tail) = (d :: s) ++ sep ++ tail := rfl
    rw [e, ih]
    cases splitSep tail <;> rfl

/-- A run of three underscores anywhere makes the scan fail. -/
theorem splitSep_triple (post : Symbol) :
    ∀ pre : Symbol, splitSep (pre ++ '_' :: '_' :: '_' :: post) = .error .AmbiguousSeparator
  | [] => by
    show splitSep ('_' :: '_' :: '_' :: post) = _
    rw [splitSep_cons_cons, if_pos ⟨rfl, rfl⟩]
    exact if_pos rfl
  | [c] => by
    show splitSep (c :: '_' :: '_' :: '_' :: post) = _
    rw [splitSep_cons_cons]
    split
    · exact if_pos rfl
    · have e : '_' :: '_' :: '_' :: post = [] ++ '_' :: '_' :: '_' :: post := rfl
      rw [e, splitSep_triple post []]; rfl
  | c :: d :: pre => by
    show splitSep (c :: d :: (pre ++ '_' :: '_' :: '_' :: post)) = _
    rw [splitSep_cons_cons]
    split
    · split
      · rfl
      · rw [splitSep_triple post pre]; rfl
    · have e : d :: (pre ++ '_' :: '_' :: '_' :: post) = (d :: pre) ++ '_' :: '_' :: '_' :: post := rfl
      rw [e, splitSep_triple post (d :: pre)]; rfl

theorem splitSep_of_containsTriple (s : Symbol) (h : ContainsTriple s) :
    splitSep s = .error .AmbiguousSeparator := by
  obtain ⟨pre, post, rfl⟩ := h
  rw [List.append_assoc]
  exact splitSep_triple post pre


/-! ## Decoding a join -/

theorem head?_specJoin (t : Symbol) (rest : List Symbol) (ht : t ≠ []) :
    (specJoin (t :: rest)).head? = t.head? := by
  obtain ⟨tail, e⟩ := specJoin_cons_eq t rest
  rw [e]
  cases t with
  | nil => exact absurd rfl ht
  | cons c t => rfl

/-- The scan of a join of non-empty, separator-free segments with clean
junctions gives the segments back. -/
theorem splitSep_specJoin (segs : List Symbol) (hne : segs ≠ [])
    (hv : ∀ s ∈ segs, s ≠ [] ∧ ¬ ContainsSep s) (hc : CleanJunctions segs) :
    splitSep (specJoin segs) = .ok segs := by
  induction segs with
  | nil => exact absurd rfl hne
  | cons s rest ih =>
    cases rest with
    | nil => exact splitSep_segment s (hv s (List.mem_cons_self s [])).2
    | cons t rest =>
      have hc : CleanJunction s t ∧ CleanJunctions (t :: rest) := hc
      have ht := hv t (List.mem_cons_of_mem _ (List.mem_cons_self _ _))
      have hhead : (specJoin (t :: rest)).head? ≠ some '_' := by
        rw [head?_specJoin t rest ht.1]; exact hc.1.2
      rw [specJoin_cons_cons,
        splitSep_segment_sep _ hhead s (hv s (List.mem_cons_self _ _)).2 hc.1.1,
        ih (List.cons_ne_nil t rest) (fun x hx => hv x (List.mem_cons_of_mem _ hx)) hc.2]
      rfl

theorem containsTriple_append_left (a b : Symbol) (h : ContainsTriple b) :
    ContainsTriple (a ++ b) := by
  unfold ContainsTriple at h ⊢
  exact h.trans (List.suffix_append a b).isInfix

/-- A junction where the left segment ends with `_` or the right one starts
with `_` puts a run of three underscores into the join. -/
theorem containsTriple_of_junction (s t : Symbol) (rest : List Symbol)
    (h : ¬ CleanJunction s t) : ContainsTriple (specJoin (s :: t :: rest)) := by
  unfold CleanJunction at h
  rw [not_and_or, not_not, not_not] at h
  obtain ⟨tail, e⟩ := specJoin_cons_eq t rest
  rw [specJoin_cons_cons, e]
  rcases h with h | h
  · obtain ⟨ys, rfl⟩ := List.getLast?_eq_some_iff.mp h
    exact ⟨ys, t ++ tail, by simp [sep]⟩
  · obtain ⟨ys, rfl⟩ := List.head?_eq_some_iff.mp h
    exact ⟨s, ys ++ tail, by simp [sep]⟩

theorem containsTriple_of_not_clean (segs : List Symbol)
    (h : ¬ CleanJunctions segs) : ContainsTriple (specJoin segs) := by
  induction segs with
  | nil => exact absurd trivial h
  | cons s rest ih =>
    cases rest with
    | nil => exact absurd trivial h
    | cons t rest =>
      have h : ¬ (CleanJunction s t ∧ CleanJunctions (t :: rest)) := h
      rw [not_and_or] at h
      rcases h with h | h
      · exact containsTriple_of_junction s t rest h
      · rw [specJoin_cons_cons]
        exact containsTriple_append_left _ _ (ih h)

theorem decode_of_splitSep (sym : Symbol) (ns : List Symbol) (m : Symbol) (hne : ns ≠ [])
    (h : splitSep sym = .ok (ns ++ [m])) : decode sym = .ok (ns, m) := by
  cases ns with
  | nil => exact absurd rfl hne
  | cons s ns =>
    unfold decode
    rw [h]
    show (match (s :: ns ++ [m]).dropLast, (s :: ns ++ [m]).getLast? with
      | [], _ => .error .MissingNamespace
      | _, none => .error .MissingNamespace
      | ns, some m => .ok (ns, m)) = (.ok (s :: ns, m) : Except CodecError (List Symbol × Symbol))
    rw [List.dropLast_concat, List.getLast?_concat]

theorem decode_of_containsTriple (sym : Symbol) (h : ContainsTriple sym) :
    decode sym = .error .AmbiguousSeparator := by
  unfold decode
  rw [splitSep_of_containsTriple sym h]

theorem decode_of_not_containsSep (sym : Symbol) (h : ¬ ContainsSep sym) :
    decode sym = .error .MissingNamespace := by
  unfold decode
  rw [splitSep_segment sym h]
  rfl

theorem bind_encode (ns : List Symbol) (m : Symbol) (hne : ns ≠ []) :
    (encode ns m >>= decode) = decode (specJoin (ns ++ [m])) := by
  rw [encode_eq_specJoin ns m hne]
  rfl

/-- Round trip for valid segments with clean junctions. -/
theorem decode_specJoin (ns : List Symbol) (m : Symbol) (hne : ns ≠ [])
    (hv : ∀ s ∈ ns ++ [m], ValidSegment s) (hc : CleanJunctions (ns ++ [m])) :
    decode (specJoin (ns ++ [m])) = .ok (ns, m) := by
  apply decode_of_splitSep _ ns m hne
  exact splitSep_specJoin _ (by simp) (fun s hs => ⟨(hv s hs).1, (hv s hs).2.2⟩) hc


/-! ## Expansion in a scope of macros -/

theorem rescan_of_none (macros : MacroEnv) (tok : Symbol) (h : macros tok = none) :
    rescan macros tok = [tok] := by
  unfold rescan
  split
  · rw [h]; rfl
  · rfl

theorem pasteable_of_isIdent (l r : Symbol) (hl : isIdent l = true)
    (hr : r.all isIdentChar = true) : pasteable l r = true := by
  unfold pasteable
  rw [hl, hr]
  simp

/-- Without a macro on the pasted name, `EXTERN_METHOD` expands to the pasted
token. -/
theorem expandEXTERN_METHOD_of_none (macros : MacroEnv) (ns name : Symbol)
    (hns : isIdent ns = true) (hname : name.all isIdentChar = true)
    (h : macros (EXTERN_METHOD ns name) = none) :
    expandEXTERN_METHOD macros ns name = some [EXTERN_METHOD ns name] := by
  unfold expandEXTERN_METHOD
  rw [if_pos (pasteable_of_isIdent ns name hns hname), rescan_of_none macros _ h]

theorem expandArg_of_none (macros : MacroEnv) (arg : Symbol) (h : macros arg = none) :
    (expandArg macros arg).getLastD [] = arg ∧ (expandArg macros arg).dropLast = [] ∧
    (expandArg macros arg).headD [] = arg ∧ (expandArg macros arg).tail = [] := by
  unfold expandArg
  cases arg with
  | nil => exact ⟨rfl, rfl, rfl, rfl⟩
  | cons c cs =>
    rw [rescan_of_none macros _ h]
    exact ⟨rfl, rfl, rfl, rfl⟩

/-- Without a macro on the arguments and on the pasted name, `EXTERN_FN`
declares the symbol of the plain definition. -/
theorem expandEXTERN_FN_of_none (macros : MacroEnv) (ns name : Symbol) (ret : String)
    (params : List String) (hns : isIdent ns = true) (hname : name.all isIdentChar = true)
    (h1 : macros ns = none) (h2 : macros name = none)
    (h : macros (EXTERN_METHOD ns name) = none) :
    expandEXTERN_FN macros ns name = some [(EXTERN_FN ns ret name params).symbol] := by
  obtain ⟨a1, a2, _, _⟩ := expandArg_of_none macros ns h1
  obtain ⟨_, _, b3, b4⟩ := expandArg_of_none macros name h2
  unfold expandEXTERN_FN
  rw [a1, a2, b3, b4, expandEXTERN_METHOD_of_none macros ns name hns hname h]
  rfl

theorem isIdent_specJoin_of_head (s : Symbol) (rest : List Symbol) (hs : isIdent s = true)
    (hr : ∀ x ∈ rest, x.all isIdentChar = true) : isIdent (specJoin (s :: rest)) = true := by
  cases rest with
  | nil => exact hs
  | cons t rest =>
    rw [specJoin_cons_cons, List.append_assoc]
    apply isIdent_append _ _ hs
    rw [List.all_append, Bool.and_eq_true]
    exact ⟨sep_all, specJoin_all _ hr⟩

/-! ## The claims -/

/-- C1 (as amended): for a non-empty namespace path and a method whose
segments are all valid (non-empty, grammar-conformant, without `__`), decoding
the encoded symbol gives back exactly the path and the method when every
junction is clean (no segment but the last ends with `_`, none but the first
starts with `_`); when some junction is not clean, decoding fails with
`AmbiguousSeparator`. -/
theorem decode_encode_roundtrip (ns : List Symbol) (m : Symbol) (hne : ns ≠ [])
    (hv : ∀ s ∈ ns ++ [m], ValidSegment s) :
    (CleanJunctions (ns ++ [m]) → (encode ns m >>= decode) = .ok (ns, m)) ∧
    (¬ CleanJunctions (ns ++ [m]) →
      (encode ns m >>= decode) = .error .AmbiguousSeparator) := by
  rw [bind_encode ns m hne]
  exact ⟨decode_specJoin ns m hne hv,
    fun h => decode_of_containsTriple _ (containsTriple_of_not_clean _ h)⟩

/-- Witness for C1: the header's own path `OCRuntime`, `PixelBindings` with
method `FillRect` round-trips. -/
theorem decode_encode_roundtrip_witness :
    (encode ["OCRuntime".toList, "PixelBindings".toList] "FillRect".toList >>= decode)
      = .ok (["OCRuntime".toList, "PixelBindings".toList], "FillRect".toList) :=
  (decode_encode_roundtrip ["OCRuntime".toList, "PixelBindings".toList] "FillRect".toList
    (by decide) (by decide)).1 (by decide)

/-- C1 fails as stated: the path `A_` with method `B` is valid (one segment,
identifiers, no `__`), its symbol is `A___B`, and decoding that symbol does not
give back the input; it fails with `AmbiguousSeparator`. -/
theorem decode_encode_roundtrip_counterexample :
    (∀ s ∈ ["A_".toList] ++ ["B".toList], ValidSegment s) ∧
    encode ["A_".toList] "B".toList = .ok "A___B".toList ∧
    (encode ["A_".toList] "B".toList >>= decode) = .error .AmbiguousSeparator ∧
    (encode ["A_".toList] "B".toList >>= decode) ≠ .ok (["A_".toList], "B".toList) := by
  decide

/-- C3 fails as stated: the segment `A__B` contains `__`, yet the expansion
yields the symbol `A__B__C`; no `InvalidSegment` is raised. -/
theorem encode_sep_segment_counterexample :
    ContainsSep "A__B".toList ∧
    encode ["A__B".toList] "C".toList = .ok "A__B__C".toList ∧
    encode ["A__B".toList] "C".toList ≠ .error .InvalidSegment := by
  decide

/-- C3 (as amended): `encode` does not reject a segment that contains `__`.
For a namespace segment of the form `a__b`, and for a method of that form,
it succeeds, and the symbol is the one of the path in which that segment is
replaced by the two segments `a` and `b`. -/
theorem encode_sep_segment_accepted (p q : List Symbol) (s a b m : Symbol) :
    (∃ sym, encode (p ++ EXTERN_METHOD a b :: q) m = .ok sym ∧
      encode (p ++ a :: b :: q) m = .ok sym) ∧
    (∃ sym, encode (s :: q) (EXTERN_METHOD a b) = .ok sym ∧
      encode (s :: q ++ [a]) b = .ok sym) := by
  constructor
  · refine ⟨specJoin ((p ++ a :: b :: q) ++ [m]), ?_, encode_eq_specJoin _ m (by simp)⟩
    rw [encode_eq_specJoin _ m (by simp)]
    have e1 : (p ++ EXTERN_METHOD a b :: q) ++ [m] = p ++ EXTERN_METHOD a b :: (q ++ [m]) := by
      simp
    have e2 : (p ++ a :: b :: q) ++ [m] = p ++ a :: b :: (q ++ [m]) := by simp
    rw [e1, e2, specJoin_split]
  · refine ⟨specJoin ((s :: q ++ [a]) ++ [b]), ?_, encode_eq_specJoin _ b (by simp)⟩
    rw [encode_eq_specJoin _ _ (by simp)]
    have e2 : (s :: q ++ [a]) ++ [b] = (s :: q) ++ a :: b :: [] := by simp
    rw [e2, specJoin_split]

/-- C4 fails as stated: the valid inputs (`A_`, method `B`) and (`A`, method
`_B`) differ and have the same symbol `A___B`. -/
theorem encode_injective_counterexample :
    (∀ s ∈ ["A_".toList] ++ ["B".toList], ValidSegment s) ∧
    (∀ s ∈ ["A".toList] ++ ["_B".toList], ValidSegment s) ∧
    encode ["A_".toList] "B".toList = encode ["A".toList] "_B".toList ∧
    ¬ (["A_".toList] = ["A".toList] ∧ "B".toList = "_B".toList) := by
  decide

/-- C4 (as amended): two valid inputs (non-empty paths; segments non-empty,
grammar-conformant, without `__`) with the same encoded symbol are equal,
provided that symbol contains no run of three underscores. -/
theorem encode_injective (ns1 ns2 : List Symbol) (m1 m2 sym : Symbol)
    (h1 : ns1 ≠ []) (h2 : ns2 ≠ [])
    (hv1 : ∀ s ∈ ns1 ++ [m1], ValidSegment s) (hv2 : ∀ s ∈ ns2 ++ [m2], ValidSegment s)
    (e1 : encode ns1 m1 = .ok sym) (e2 : encode ns2 m2 = .ok sym)
    (hs : ¬ ContainsTriple sym) : ns1 = ns2 ∧ m1 = m2 := by
  rw [encode_eq_specJoin ns1 m1 h1] at e1
  rw [encode_eq_specJoin ns2 m2 h2] at e2
  have s1 : specJoin (ns1 ++ [m1]) = sym := by injection e1
  have s2 : specJoin (ns2 ++ [m2]) = sym := by injection e2
  have c1 : CleanJunctions (ns1 ++ [m1]) := by
    by_contra hc
    exact hs (s1 ▸ containsTriple_of_not_clean _ hc)
  have c2 : CleanJunctions (ns2 ++ [m2]) := by
    by_contra hc
    exact hs (s2 ▸ containsTriple_of_not_clean _ hc)
  have d1 := decode_specJoin ns1 m1 h1 hv1 c1
  have d2 := decode_specJoin ns2 m2 h2 hv2 c2
  rw [s1] at d1
  rw [s2, d1] at d2
  injection d2 with d2
  injection d2 with hn hm
  exact ⟨hn, hm⟩

/-- Witness for C4: the header's path `OCRuntime`, `PixelBindings` with method
`FillRect` meets every hypothesis. -/
theorem encode_injective_witness :
    ["OCRuntime".toList, "PixelBindings".toList] = ["OCRuntime".toList, "PixelBindings".toList]
      ∧ "FillRect".toList = "FillRect".toList :=
  encode_injective ["OCRuntime".toList, "PixelBindings".toList]
    ["OCRuntime".toList, "PixelBindings".toList] "FillRect".toList "FillRect".toList
    "OCRuntime__PixelBindings__FillRect".toList
    (by decide) (by decide) (by decide) (by decide) (by decide) (by decide) (by decide)

/-- C5: every symbol that contains a run of three or more consecutive
underscores makes `decode` fail with `AmbiguousSeparator`. -/
theorem decode_ambiguous (symbol : Symbol) (h : ContainsTriple symbol) :
    decode symbol = .error .AmbiguousSeparator :=
  decode_of_containsTriple symbol h

/-- Witness for C5: `A___B__C`, three underscores between `A` and `B`. -/
theorem decode_ambiguous_witness :
    decode "A___B__C".toList = .error .AmbiguousSeparator :=
  decode_ambiguous "A___B__C".toList (by decide)

/-- C6: every symbol without any occurrence of `__` makes `decode` fail with
`MissingNamespace`. -/
theorem decode_missing_namespace (symbol : Symbol) (h : ¬ ContainsSep symbol) :
    decode symbol = .error .MissingNamespace :=
  decode_of_not_containsSep symbol h

/-- Witness for C6: the bare method name `FillRect`. -/
theorem decode_missing_namespace_witness :
    decode "FillRect".toList = .error .MissingNamespace :=
  decode_missing_namespace "FillRect".toList (by decide)

/-- C7 fails as stated: the path `OCRuntime`, empty segment, with method
`FillRect` has an empty segment, yet the expansion yields the symbol
`OCRuntime____FillRect`; no `InvalidSegment` is raised. -/
theorem encode_empty_segment_counterexample :
    ([] : Symbol) ∈ ["OCRuntime".toList, []] ∧
    encode ["OCRuntime".toList, []] "FillRect".toList = .ok "OCRuntime____FillRect".toList ∧
    encode ["OCRuntime".toList, []] "FillRect".toList ≠ .error .InvalidSegment := by
  decide

/-- C7 (as amended): the header has no emptiness check and raises no
`InvalidSegment`.  For a path with an empty namespace segment after the first,
whose other segments and method are identifiers, and provided the pasted name
is not a macro name in scope, `EXTERN_METHOD` expands to the plain join, which
contains a run of four underscores. -/
theorem expand_empty_segment (macros : MacroEnv) (s : Symbol) (p q : List Symbol) (m : Symbol)
    (hid : ∀ x ∈ s :: p ++ q ++ [m], isIdent x = true)
    (hm : macros (EXTERN_METHOD (nsToken (s :: p ++ [] :: q)) m) = none) :
    ∃ sym, encode (s :: p ++ [] :: q) m = .ok sym ∧
      expandEXTERN_METHOD macros (nsToken (s :: p ++ [] :: q)) m = some [sym] ∧
      ['_', '_', '_', '_'] <:+: sym := by
  have hall : ∀ x ∈ p ++ [] :: q, x.all isIdentChar = true := by
    intro x hx
    rcases List.mem_append.mp hx with h | h
    · exact isIdent_all x (hid x (by simp [h]))
    · rcases List.mem_cons.mp h with h | h
      · rw [h]; rfl
      · exact isIdent_all x (hid x (by simp [h]))
  have hns : isIdent (nsToken (s :: p ++ [] :: q)) = true := by
    rw [nsToken_eq_specJoin]
    exact isIdent_specJoin_of_head s (p ++ [] :: q) (hid s (by simp)) hall
  have hmi : m.all isIdentChar = true := isIdent_all m (hid m (by simp))
  refine ⟨EXTERN_METHOD (nsToken (s :: p ++ [] :: q)) m, rfl,
    expandEXTERN_METHOD_of_none macros _ m hns hmi hm, ?_⟩
  have e : s :: p ++ [] :: q = (s :: p) ++ ([] :: q) := by simp
  rw [nsToken_eq_specJoin, e, specJoin_append _ _ (by simp) (by simp)]
  cases q with
  | nil => exact ⟨specJoin (s :: p), m, by simp [EXTERN_METHOD, sep, specJoin]⟩
  | cons t q =>
    exact ⟨specJoin (s :: p), specJoin (t :: q) ++ sep ++ m, by
      simp [EXTERN_METHOD, sep, specJoin_nil_cons]⟩

/-- Witness for C7: the path `OCRuntime`, empty segment, with method `FillRect`
in the scope without macros. -/
theorem expand_empty_segment_witness :
    ∃ sym, encode ("OCRuntime".toList :: [] ++ [] :: []) "FillRect".toList = .ok sym ∧
      expandEXTERN_METHOD noMacros (nsToken ("OCRuntime".toList :: [] ++ [] :: []))
        "FillRect".toList = some [sym] ∧
      ['_', '_', '_', '_'] <:+: sym :=
  expand_empty_segment noMacros "OCRuntime".toList [] [] "FillRect".toList
    (by decide) (by decide)

/-- C8 (code defect): the header defines the one `MODULE_METADATA` instance
on line 27, before `struct MODULE_METADATA` is defined on lines 46-50, so the
unit as written is refused and exposes no descriptor; with the struct
definition placed first the same items expose exactly the descriptor
`MyModule`, `1.0.0`, `Your Name`. -/
theorem module_descriptor_incomplete_type :
    moduleDescriptors [] oic_extern_h = .error (.IncompleteType "MODULE_METADATA") ∧
    moduleDescriptors []
        ([ .structDef "MODULE_METADATA" ["name", "version", "author"],
           .metadataInstance ⟨"MyModule", "1.0.0", "Your Name"⟩ ] ++ oic_extern_h.drop 2)
      = .ok [⟨"MyModule", "1.0.0", "Your Name"⟩] := by
  decide

/-- C9: the seven declared functions have the symbols
`OCRuntime__PixelBindings__<Method>`; each is the encoding of the path
`OCRuntime`, `PixelBindings` with its method and decodes, without error, to
that path and method; the seven symbols are pairwise distinct. -/
theorem declared_symbols_decode :
    declaredSymbols oic_extern_h =
      [ "OCRuntime__PixelBindings__FillRect".toList,
        "OCRuntime__PixelBindings__SetPixel".toList,
        "OCRuntime__PixelBindings__Clear".toList,
        "OCRuntime__PixelBindings__RectFill".toList,
        "OCRuntime__PixelBindings__PlayOneShot".toList,
        "OCRuntime__PixelBindings__ButtonClick".toList,
        "OCRuntime__PixelBindings__SynthPlay".toList ] ∧
    (declaredSymbols oic_extern_h).map .ok =
      ["FillRect", "SetPixel", "Clear", "RectFill", "PlayOneShot", "ButtonClick", "SynthPlay"].map
        (fun m => encode ["OCRuntime".toList, "PixelBindings".toList] m.toList) ∧
    (declaredSymbols oic_extern_h).map decode =
      ["FillRect", "SetPixel", "Clear", "RectFill", "PlayOneShot", "ButtonClick", "SynthPlay"].map
        (fun m => .ok (["OCRuntime".toList, "PixelBindings".toList], m.toList)) ∧
    (declaredSymbols oic_extern_h).Nodup := by
  decide

/-- C10 fails as stated: `__stub` and `_compat_bdflush` are non-empty
identifiers, yet in a scope where the pasted name `__stub___compat_bdflush`
is a macro with an empty replacement list, `EXTERN_METHOD` and `EXTERN_FN`
expand to no token at all. -/
theorem expand_preserves_ident_counterexample :
    (∀ s ∈ ["__stub".toList] ++ ["_compat_bdflush".toList], s ≠ [] ∧ isIdent s = true) ∧
    expandEXTERN_METHOD stubScope (nsToken ["__stub".toList]) "_compat_bdflush".toList
      = some [] ∧
    expandEXTERN_FN stubScope (nsToken ["__stub".toList]) "_compat_bdflush".toList
      = some [] := by
  decide

/-- C10 (as amended): for a non-empty namespace path and a method whose
segments are all non-empty identifiers, and provided the pasted name is not a
macro name in scope, `EXTERN_METHOD` expands to one token, the join, which is
non-empty and matches the identifier grammar; when in addition neither the
namespace token nor the method is a macro name in scope, `EXTERN_FN` declares
exactly that symbol. -/
theorem expand_preserves_ident (macros : MacroEnv) (ns : List Symbol) (m : Symbol)
    (hne : ns ≠ []) (h : ∀ s ∈ ns ++ [m], s ≠ [] ∧ isIdent s = true)
    (hm : macros (EXTERN_METHOD (nsToken ns) m) = none) :
    ∃ sym, encode ns m = .ok sym ∧
      expandEXTERN_METHOD macros (nsToken ns) m = some [sym] ∧
      sym ≠ [] ∧ isIdent sym = true ∧
      (macros (nsToken ns) = none → macros m = none →
        expandEXTERN_FN macros (nsToken ns) m = some [sym]) := by
  cases ns with
  | nil => exact absurd rfl hne
  | cons s rest =>
    have hns : isIdent (nsToken (s :: rest)) = true := by
      rw [nsToken_eq_specJoin]
      exact specJoin_isIdent s rest fun x hx => (h x (List.mem_append_left _ hx)).2
    have hmi : m.all isIdentChar = true := isIdent_all m (h m (by simp)).2
    have hi : isIdent (EXTERN_METHOD (nsToken (s :: rest)) m) = true := by
      unfold EXTERN_METHOD
      rw [List.append_assoc]
      apply isIdent_append _ _ hns
      rw [List.all_append, Bool.and_eq_true]
      exact ⟨sep_all, hmi⟩
    refine ⟨EXTERN_METHOD (nsToken (s :: rest)) m, rfl,
      expandEXTERN_METHOD_of_none macros _ m hns hmi hm, ?_, hi, ?_⟩
    · intro hnil
      rw [hnil] at hi
      exact absurd hi (by decide)
    · intro h1 h2
      exact expandEXTERN_FN_of_none macros _ m "" [] hns hmi h1 h2 hm

/-- Witness for C10: the path `OCRuntime`, `PixelBindings` with method
`FillRect` in the scope `stubScope`, where none of the names involved is a
macro name. -/
theorem expand_preserves_ident_witness :
    ∃ sym, encode ["OCRuntime".toList, "PixelBindings".toList] "FillRect".toList = .ok sym ∧
      expandEXTERN_METHOD stubScope (nsToken ["OCRuntime".toList, "PixelBindings".toList])
        "FillRect".toList = some [sym] ∧
      sym ≠ [] ∧ isIdent sym = true ∧
      (stubScope (nsToken ["OCRuntime".toList, "PixelBindings".toList]) = none →
        stubScope "FillRect".toList = none →
        expandEXTERN_FN stubScope (nsToken ["OCRuntime".toList, "PixelBindings".toList])
          "FillRect".toList = some [sym]) :=
  expand_preserves_ident stubScope ["OCRuntime".toList, "PixelBindings".toList]
    "FillRect".toList (by decide) (by decide) (by decide)

end OIC
